import Mathlib

/-!
Verification development for the rlm-runtime repository.

The TypeScript SDK (npm-package/src/index.ts) is embedded shallowly:
its constant tables become Lean lists and functions, and its pure
functions become Lean functions.  Parts of the runtime that the
repository only declares (the Python sandbox executor, the session
manager, the orchestrator loop) are modelled from the specification;
each such definition says so in its doc comment.
-/

-- ===========================================================================
-- Import allow/block lists (npm-package/src/index.ts, ALLOWED_IMPORTS /
-- BLOCKED_IMPORTS)
-- ===========================================================================

/-- Modules allowed in sandboxed mode (index.ts `ALLOWED_IMPORTS`). -/
def ALLOWED_IMPORTS : List String :=
  ["json", "re", "math", "datetime", "time", "uuid",
   "hashlib", "base64", "string", "textwrap",
   "collections", "itertools", "functools", "operator",
   "dataclasses", "typing", "enum", "copy",
   "csv", "statistics", "decimal", "fractions",
   "pathlib", "posixpath", "ntpath",
   "urllib.parse",
   "difflib", "unicodedata"]

/-- Modules blocked in sandboxed mode (index.ts `BLOCKED_IMPORTS`). -/
def BLOCKED_IMPORTS : List String :=
  ["os", "sys", "subprocess", "shutil", "platform", "signal", "resource",
   "socket", "ssl", "requests", "urllib.request", "http",
   "pickle", "shelve", "marshal",
   "sqlite3",
   "ctypes", "cffi", "mmap",
   "multiprocessing", "threading", "concurrent", "asyncio",
   "importlib", "builtins", "eval", "exec", "compile", "code",
   "tempfile", "fileinput", "glob", "fnmatch",
   "pdb", "bdb", "trace", "traceback", "inspect", "dis", "ast",
   "atexit", "gc"]

-- ===========================================================================
-- Dotted module names: split on '.' and join with '.', embedding the
-- JavaScript `moduleName.split('.')` / `parts.slice(0, i+1).join('.')`
-- used by isImportAllowed.
-- ===========================================================================

/-- Split a character list at every dot, as JavaScript `split('.')` does
(`splitDotC "a..b" = ["a", "", "b"]`, `splitDotC "" = [""]`). -/
def splitDotC : List Char → List (List Char)
  | [] => [[]]
  | c :: cs =>
    if c = '.' then [] :: splitDotC cs
    else
      match splitDotC cs with
      | [] => [[c]]
      | p :: ps => (c :: p) :: ps

/-- Join character lists with a dot between consecutive parts, as
JavaScript `join('.')` does. -/
def joinDotC : List (List Char) → List Char
  | [] => []
  | [p] => p
  | p :: ps => p ++ '.' :: joinDotC ps

/-- Split a module name at every dot (`"urllib.parse"` becomes
`["urllib", "parse"]`). -/
def splitDot (s : String) : List String :=
  (splitDotC s.data).map String.mk

/-- Join name parts with dots. -/
def joinDot (l : List String) : String :=
  String.mk (joinDotC (l.map String.data))

/-- All dotted parents of a parts list, shortest first, ending with the
full name: the values `parts.slice(0, i + 1).join('.')` for
`i = 0 .. parts.length - 1` in the isImportAllowed loop. -/
def dottedParents (parts : List String) : List String :=
  (List.range parts.length).map (fun i => joinDot (parts.take (i + 1)))

/-- The body of the isImportAllowed loop: deny on the first blocked
entry, allow on the first allowed entry, deny when the list runs out. -/
def checkParents : List String → Bool
  | [] => false
  | p :: rest =>
    if p ∈ BLOCKED_IMPORTS then false
    else if p ∈ ALLOWED_IMPORTS then true
    else checkParents rest

/-- Check if a module is allowed in sandboxed mode
(index.ts `isImportAllowed`): full name against the blocked list, then
against the allowed list, then the parent-module loop. -/
def isImportAllowed (moduleName : String) : Bool :=
  if moduleName ∈ BLOCKED_IMPORTS then false
  else if moduleName ∈ ALLOWED_IMPORTS then true
  else checkParents (dottedParents (splitDot moduleName))

/-- First verdict over a list of candidate names: `some false` at the
first blocked name, `some true` at the first allowed name, `none` when
no name is listed. -/
def firstVerdict : List String → Option Bool
  | [] => none
  | p :: rest =>
    if p ∈ BLOCKED_IMPORTS then some false
    else if p ∈ ALLOWED_IMPORTS then some true
    else firstVerdict rest

/-- Reference algorithm written from the specification's words: deny if
the full name is blocked, allow if the full name is allowed, otherwise
walk the dotted prefixes from shortest to longest, denying on the first
blocked one and allowing on the first allowed one, and deny any name
with no listed prefix (default-deny). -/
def specImportDecision (m : String) : Bool :=
  (firstVerdict (m :: dottedParents (splitDot m))).getD false

-- ===========================================================================
-- Execution profiles (index.ts EXECUTION_PROFILES / getProfile)
-- ===========================================================================

/-- Execution profile names (index.ts `ExecutionProfile`). -/
inductive ExecutionProfile where
  | quick
  | default
  | analysis
  | extended
deriving DecidableEq

/-- One profile's configuration: timeout in seconds, memory limit
string, description (index.ts record value type). -/
structure ProfileConfig where
  timeout : Nat
  memory : String
  description : String
deriving DecidableEq

/-- Profile configurations with timeout and memory limits
(index.ts `EXECUTION_PROFILES`). -/
def EXECUTION_PROFILES : ExecutionProfile → ProfileConfig
  | .quick =>
    { timeout := 5, memory := "128m",
      description := "Fast operations: simple math, string manipulation" }
  | .default =>
    { timeout := 30, memory := "512m",
      description := "Standard operations: data processing, algorithms" }
  | .analysis =>
    { timeout := 120, memory := "2g",
      description := "Heavy computation: large datasets, complex algorithms" }
  | .extended =>
    { timeout := 300, memory := "4g",
      description := "Long-running tasks: batch processing, extensive analysis" }

/-- Get profile configuration by name (index.ts `getProfile`). -/
def getProfile (name : ExecutionProfile) : ProfileConfig :=
  EXECUTION_PROFILES name

-- ===========================================================================
-- Trust levels (index.ts TrustLevel)
-- ===========================================================================

/-- The values of the string-literal union type
`TrustLevel = 'sandboxed' | 'docker' | 'local'` in index.ts. -/
def TRUST_LEVELS : List String :=
  ["sandboxed", "docker", "local"]

/-- A string is a trust level when it is one of the union's literals. -/
def isTrustLevel (s : String) : Prop :=
  s ∈ TRUST_LEVELS

instance (s : String) : Decidable (isTrustLevel s) := by
  unfold isTrustLevel
  infer_instance

-- ===========================================================================
-- Execution results and the sandbox executor
-- ===========================================================================

/-- Result from Python code execution (index.ts `REPLResult`): output,
optional error, timing and memory measurements, truncation flag and
success flag. -/
structure REPLResult where
  output : String
  error : Option String
  execution_time_ms : Nat
  truncated : Bool
  memory_peak_bytes : Option Nat
  cpu_time_ms : Option Nat
  success : Bool
deriving DecidableEq

/-- A session's variable context: a mapping from variable name to
serialized value, keys unique. -/
def ReplContext := List (String × String)

/-- Modelled from the spec: the code submitted to execute_code, seen by
the sandbox as the list of modules it imports plus its effect when it is
actually run — a context transition returning either an error text or
the produced output.  The concrete RestrictedPython executor is not part
of the repository's sources. -/
structure SandboxCode where
  imports : List String
  run : ReplContext → ReplContext × Except String String

/-- The fixed output truncation ceiling: 100 KB. -/
def OUTPUT_LIMIT : Nat := 100 * 1024

/-- Modelled from the spec: output is hard-truncated at the fixed byte
ceiling, and the truncated flag says whether truncation happened. -/
def truncateOutput (out : String) : String × Bool :=
  if out.length > OUTPUT_LIMIT then (String.mk (out.data.take OUTPUT_LIMIT), true)
  else (out, false)

/-- The security-error text reported for a disallowed import. -/
def securityErrorMsg (m : String) : String :=
  "SecurityViolation: import not allowed: " ++ m

/-- Modelled from the spec: execute_code checks every import of the
submitted code against the allow-list before any user code runs; on a
disallowed import it returns success = false with a security error and
the context is untouched (no side effects).  Otherwise the code runs,
a raised error yields success = false with the error text, and produced
output is returned with success = true, hard-truncated at the ceiling.
The executor itself is not part of the repository's sources. -/
def executeCode (c : SandboxCode) (ctx : ReplContext) : REPLResult × ReplContext :=
  match c.imports.find? (fun i => ! isImportAllowed i) with
  | some bad =>
    ({ output := "", error := some (securityErrorMsg bad), execution_time_ms := 0,
       truncated := false, memory_peak_bytes := none, cpu_time_ms := none,
       success := false }, ctx)
  | none =>
    match c.run ctx with
    | (ctx2, Except.error e) =>
      ({ output := "", error := some e, execution_time_ms := 0,
         truncated := false, memory_peak_bytes := none, cpu_time_ms := none,
         success := false }, ctx2)
    | (ctx2, Except.ok out) =>
      ({ output := (truncateOutput out).1, error := none, execution_time_ms := 0,
         truncated := (truncateOutput out).2, memory_peak_bytes := none,
         cpu_time_ms := none, success := true }, ctx2)

-- ===========================================================================
-- Session context store
-- ===========================================================================

/-- Modelled from the spec: the session manager maps each session id to
that session's variable context.  The manager itself is not part of the
repository's sources. -/
def SessionStore := String → ReplContext

/-- Set one key of a context, replacing an existing entry for the key or
appending a fresh one (keys stay unique). -/
def setKey : ReplContext → String → String → ReplContext
  | [], k, v => [(k, v)]
  | (k2, v2) :: rest, k, v =>
    if k2 = k then (k, v) :: rest else (k2, v2) :: setKey rest k v

/-- Modelled from the spec: get_context returns the named session's
context mapping. -/
def getContext (st : SessionStore) (sid : String) : ReplContext :=
  st sid

/-- Modelled from the spec: set_context stores value v under key k in
the named session, leaving every other session untouched. -/
def setContext (st : SessionStore) (sid k v : String) : SessionStore :=
  fun id2 => if id2 = sid then setKey (st id2) k v else st id2

/-- Modelled from the spec: clear_context removes all keys of the named
session, leaving every other session untouched. -/
def clearContext (st : SessionStore) (sid : String) : SessionStore :=
  fun id2 => if id2 = sid then [] else st id2

-- ===========================================================================
-- Agent dispatch loop
-- ===========================================================================

/-- One model response: either a final answer or a batch of tool calls. -/
inductive ModelResponse where
  | finalAnswer (text : String)
  | toolCalls (calls : List String)

/-- Result from agent run (index.ts `AgentResult`). -/
structure AgentResult where
  answer : String
  answer_source : String
  iterations : Nat
  total_tokens : Nat
  total_cost : Nat
  duration_ms : Nat
  forced_termination : Bool
  run_id : String
  success : Bool
deriving DecidableEq

/-- Modelled from the spec: the orchestrator dispatch loop with the
depth budget checked pre-emptively.  `fuel` is the remaining depth and
`iters` the tool-dispatch round trips completed so far; when the budget
is exhausted the loop returns a forced-termination result WITHOUT asking
the model again, otherwise it asks the model and either finishes on a
final answer or dispatches the requested tools and recurses.  The
orchestrator itself is not part of the repository's sources. -/
def agentLoopAux (respond : Nat → ModelResponse) : Nat → Nat → AgentResult
  | 0, iters =>
    { answer := "", answer_source := "forced", iterations := iters,
      total_tokens := 0, total_cost := 0, duration_ms := 0,
      forced_termination := true, run_id := "", success := false }
  | fuel + 1, iters =>
    match respond iters with
    | .finalAnswer a =>
      { answer := a, answer_source := "final", iterations := iters,
        total_tokens := 0, total_cost := 0, duration_ms := 0,
        forced_termination := false, run_id := "", success := true }
    | .toolCalls _ => agentLoopAux respond fuel (iters + 1)

/-- Modelled from the spec: a run configured with max_depth = N starts
the loop with N units of depth budget. -/
def runAgent (respond : Nat → ModelResponse) (maxDepth : Nat) : AgentResult :=
  agentLoopAux respond maxDepth 0

-- ===========================================================================
-- Helper lemmas: splitting and joining dotted names
-- ===========================================================================

theorem splitDotC_ne_nil (cs : List Char) : splitDotC cs ≠ [] := by
  cases cs with
  | nil => simp [splitDotC]
  | cons c cs =>
    by_cases h : c = '.'
    · simp [splitDotC, h]
    · simp only [splitDotC, if_neg h]
      cases splitDotC cs <;> simp

theorem joinDotC_splitDotC (cs : List Char) : joinDotC (splitDotC cs) = cs := by
  induction cs with
  | nil => rfl
  | cons c cs ih =>
    by_cases h : c = '.'
    · subst h
      simp only [splitDotC, if_pos rfl]
      rcases hs : splitDotC cs with _ | ⟨p, ps⟩
      · exact absurd hs (splitDotC_ne_nil cs)
      · rw [hs] at ih
        simpa [joinDotC] using ih
    · simp only [splitDotC, if_neg h]
      rcases hs : splitDotC cs with _ | ⟨p, ps⟩
      · exact absurd hs (splitDotC_ne_nil cs)
      · rw [hs] at ih
        cases ps with
        | nil => simpa [joinDotC] using ih
        | cons q qs => simpa [joinDotC] using ih

theorem dot_not_mem_splitDotC (cs : List Char) :
    ∀ p ∈ splitDotC cs, '.' ∉ p := by
  induction cs with
  | nil =>
    intro p hp
    simp [splitDotC] at hp
    simp [hp]
  | cons c cs ih =>
    intro p hp
    by_cases h : c = '.'
    · simp only [splitDotC, if_pos h, List.mem_cons] at hp
      rcases hp with hp | hp
      · simp [hp]
      · exact ih p hp
    · simp only [splitDotC, if_neg h] at hp
      rcases hs : splitDotC cs with _ | ⟨q, qs⟩
      · exact absurd hs (splitDotC_ne_nil cs)
      · rw [hs] at hp
        simp only [List.mem_cons] at hp
        rcases hp with hp | hp
        · subst hp
          intro hmem
          rcases List.mem_cons.mp hmem with h1 | h1
          · exact h h1.symm
          · exact ih q (by rw [hs]; exact List.mem_cons_self q qs) h1
        · exact ih p (by rw [hs]; exact List.mem_cons_of_mem q hp)

theorem splitDotC_of_no_dot (x : List Char) (hx : '.' ∉ x) :
    splitDotC x = [x] := by
  induction x with
  | nil => rfl
  | cons c cs ih =>
    have hc : c ≠ '.' := fun h => hx (h ▸ List.mem_cons_self c cs)
    have hcs : '.' ∉ cs := fun h => hx (List.mem_cons_of_mem c h)
    simp [splitDotC, hc, ih hcs]

theorem splitDotC_append_dot (x r : List Char) (hx : '.' ∉ x) :
    splitDotC (x ++ '.' :: r) = x :: splitDotC r := by
  induction x with
  | nil => simp [splitDotC]
  | cons c cs ih =>
    have hc : c ≠ '.' := fun h => hx (h ▸ List.mem_cons_self c cs)
    have hcs : '.' ∉ cs := fun h => hx (List.mem_cons_of_mem c h)
    simp [splitDotC, hc, ih hcs]

theorem splitDotC_joinDotC (l : List (List Char)) (hne : l ≠ [])
    (hdot : ∀ p ∈ l, '.' ∉ p) : splitDotC (joinDotC l) = l := by
  induction l with
  | nil => exact absurd rfl hne
  | cons p ps ih =>
    cases ps with
    | nil =>
      simpa [joinDotC] using splitDotC_of_no_dot p (hdot p (List.mem_cons_self p []))
    | cons q qs =>
      have hp : '.' ∉ p := hdot p (List.mem_cons_self p (q :: qs))
      have hrest : ∀ x ∈ q :: qs, '.' ∉ x :=
        fun x hx => hdot x (List.mem_cons_of_mem p hx)
      simp only [joinDotC]
      rw [splitDotC_append_dot p _ hp, ih (by simp) hrest]

theorem joinDot_splitDot (s : String) : joinDot (splitDot s) = s := by
  simp only [joinDot, splitDot, List.map_map]
  rw [show String.data ∘ String.mk = id from rfl, List.map_id, joinDotC_splitDotC]

theorem splitDot_ne_nil (s : String) : splitDot s ≠ [] := by
  simp only [splitDot]
  intro h
  exact splitDotC_ne_nil s.data (List.map_eq_nil_iff.mp h)

theorem dotFree_splitDot (s : String) :
    ∀ p ∈ splitDot s, '.' ∉ p.data := by
  intro p hp
  simp only [splitDot, List.mem_map] at hp
  obtain ⟨q, hq, rfl⟩ := hp
  exact dot_not_mem_splitDotC s.data q hq

theorem splitDot_joinDot (l : List String) (hne : l ≠ [])
    (hdot : ∀ p ∈ l, '.' ∉ p.data) : splitDot (joinDot l) = l := by
  simp only [splitDot, joinDot]
  have hmapne : l.map String.data ≠ [] := by
    intro h
    exact hne (List.map_eq_nil_iff.mp h)
  have hmapdot : ∀ p ∈ l.map String.data, '.' ∉ p := by
    intro p hp
    simp only [List.mem_map] at hp
    obtain ⟨q, hq, rfl⟩ := hp
    exact hdot q hq
  rw [splitDotC_joinDotC (l.map String.data) hmapne hmapdot, List.map_map]
  rw [show String.mk ∘ String.data = id from rfl, List.map_id]

-- ===========================================================================
-- Decidable facts about the two concrete name lists
-- ===========================================================================

theorem allowed_not_blocked : ∀ m ∈ ALLOWED_IMPORTS, m ∉ BLOCKED_IMPORTS := by
  decide

theorem no_blocked_extends_allowed :
    ∀ b ∈ BLOCKED_IMPORTS, ∀ p ∈ ALLOWED_IMPORTS, ¬ splitDot p <+: splitDot b := by
  decide

theorem no_blocked_within_allowed :
    ∀ p ∈ ALLOWED_IMPORTS, ∀ b ∈ BLOCKED_IMPORTS, ¬ splitDot b <+: splitDot p := by
  decide

theorem every_blocked_denied : ∀ m ∈ BLOCKED_IMPORTS, isImportAllowed m = false := by
  decide

-- ===========================================================================
-- The parent walk accepts once it reaches an allowed parent that is not
-- preceded by a blocked one
-- ===========================================================================

theorem checkParents_map_range (f : Nat → String) :
    ∀ n k, k < n → f k ∉ BLOCKED_IMPORTS → f k ∈ ALLOWED_IMPORTS →
      (∀ j, j < k → f j ∉ BLOCKED_IMPORTS) →
      checkParents ((List.range n).map f) = true := by
  intro n
  induction n generalizing f with
  | zero => intro k hk; omega
  | succ n ih =>
    intro k hk hkB hkA hj
    rw [List.range_succ_eq_map, List.map_cons, List.map_map]
    cases k with
    | zero =>
      simp [checkParents, hkB, hkA]
    | succ k2 =>
      have h0B : f 0 ∉ BLOCKED_IMPORTS := hj 0 (Nat.succ_pos k2)
      by_cases h0A : f 0 ∈ ALLOWED_IMPORTS
      · simp [checkParents, h0B, h0A]
      · simp only [checkParents, if_neg h0B, if_neg h0A]
        exact ih (f ∘ Nat.succ) k2 (Nat.lt_of_succ_lt_succ hk) hkB hkA
          (fun j hj2 => hj (j + 1) (Nat.succ_lt_succ hj2))

theorem isImportAllowed_of_allowed_parent (m p : String)
    (hp : p ∈ ALLOWED_IMPORTS) (hpre : splitDot p <+: splitDot m) :
    isImportAllowed m = true := by
  have hmB : m ∉ BLOCKED_IMPORTS := fun hmB =>
    no_blocked_extends_allowed m hmB p hp hpre
  by_cases hmA : m ∈ ALLOWED_IMPORTS
  · simp [isImportAllowed, hmB, hmA]
  · simp only [isImportAllowed, if_neg hmB, if_neg hmA]
    obtain ⟨t, ht⟩ := hpre
    have hkp1 : 1 ≤ (splitDot p).length := by
      have hne := splitDot_ne_nil p
      have hpos : 0 < (splitDot p).length := List.length_pos.mpr hne
      omega
    have hkpn : (splitDot p).length ≤ (splitDot m).length := by
      rw [← ht, List.length_append]; omega
    show checkParents
      ((List.range (splitDot m).length).map
        (fun i => joinDot ((splitDot m).take (i + 1)))) = true
    apply checkParents_map_range _ _ ((splitDot p).length - 1)
    · omega
    · have htake : (splitDot m).take ((splitDot p).length - 1 + 1) = splitDot p := by
        rw [← ht]
        have h1 : (splitDot p).length - 1 + 1 = (splitDot p).length := by omega
        rw [h1, List.take_append_of_le_length le_rfl, List.take_length]
      rw [htake, joinDot_splitDot]
      exact allowed_not_blocked p hp
    · have htake : (splitDot m).take ((splitDot p).length - 1 + 1) = splitDot p := by
        rw [← ht]
        have h1 : (splitDot p).length - 1 + 1 = (splitDot p).length := by omega
        rw [h1, List.take_append_of_le_length le_rfl, List.take_length]
      rw [htake, joinDot_splitDot]
      exact hp
    · intro j hj hB
      have hj1 : j + 1 ≤ (splitDot p).length := by omega
      have htake : (splitDot m).take (j + 1) = (splitDot p).take (j + 1) := by
        rw [← ht]
        exact List.take_append_of_le_length hj1
      rw [htake] at hB
      have hqlen : ((splitDot p).take (j + 1)).length = j + 1 := by
        rw [List.length_take]
        omega
      have hqne : (splitDot p).take (j + 1) ≠ [] := by
        intro hnil
        rw [hnil] at hqlen
        simp at hqlen
      have hqdot : ∀ x ∈ (splitDot p).take (j + 1), '.' ∉ x.data :=
        fun x hx => dotFree_splitDot p x (List.mem_of_mem_take hx)
      have hpre2 : splitDot (joinDot ((splitDot p).take (j + 1))) <+: splitDot p := by
        rw [splitDot_joinDot _ hqne hqdot]
        exact ⟨(splitDot p).drop (j + 1), List.take_append_drop _ _⟩
      exact no_blocked_within_allowed p hp _ hB hpre2

-- ===========================================================================
-- Remaining helper lemmas
-- ===========================================================================

theorem checkParents_eq_firstVerdict (l : List String) :
    checkParents l = (firstVerdict l).getD false := by
  induction l with
  | nil => rfl
  | cons p rest ih =>
    by_cases hB : p ∈ BLOCKED_IMPORTS
    · simp [checkParents, firstVerdict, hB]
    · by_cases hA : p ∈ ALLOWED_IMPORTS
      · simp [checkParents, firstVerdict, hB, hA]
      · simp [checkParents, firstVerdict, hB, hA, ih]

theorem lookup_setKey (ctx : ReplContext) (k v : String) :
    List.lookup k (setKey ctx k v) = some v := by
  induction ctx with
  | nil => simp [setKey, List.lookup]
  | cons kv rest ih =>
    obtain ⟨k2, v2⟩ := kv
    by_cases h : k2 = k
    · simp [setKey, h, List.lookup]
    · have hne : ¬ k = k2 := fun e => h e.symm
      have hbeq : (k == k2) = false := by simp [hne]
      simp [setKey, h, List.lookup, hbeq, ih]

theorem agentLoopAux_iterations_le (respond : Nat → ModelResponse) :
    ∀ fuel iters, (agentLoopAux respond fuel iters).iterations ≤ iters + fuel := by
  intro fuel
  induction fuel with
  | zero => intro iters; simp [agentLoopAux]
  | succ n ih =>
    intro iters
    cases h : respond iters with
    | finalAnswer a => simp [agentLoopAux, h]
    | toolCalls calls =>
      simp only [agentLoopAux, h]
      have := ih (iters + 1)
      omega

theorem agentLoopAux_forced (respond : Nat → ModelResponse)
    (h : ∀ i, ∃ calls, respond i = ModelResponse.toolCalls calls) :
    ∀ fuel iters,
      (agentLoopAux respond fuel iters).iterations = iters + fuel ∧
      (agentLoopAux respond fuel iters).forced_termination = true ∧
      (agentLoopAux respond fuel iters).answer_source = "forced" := by
  intro fuel
  induction fuel with
  | zero => intro iters; simp [agentLoopAux]
  | succ n ih =>
    intro iters
    obtain ⟨calls, hc⟩ := h iters
    simp only [agentLoopAux, hc]
    have hrec := ih (iters + 1)
    exact ⟨hrec.1.trans (by omega), hrec.2.1, hrec.2.2⟩

-- ===========================================================================
-- Claim theorems
-- ===========================================================================

/-- Claim C1: every module name in the blocked import set is rejected by
isImportAllowed, and execute_code on code importing it returns
success = false with a security error and leaves the context untouched
(no user code runs). -/
theorem blocked_import_rejected (m : String) (hm : m ∈ BLOCKED_IMPORTS)
    (c : SandboxCode) (ctx : ReplContext) (hc : m ∈ c.imports) :
    isImportAllowed m = false ∧
    (executeCode c ctx).1.success = false ∧
    (∃ b, isImportAllowed b = false ∧
      (executeCode c ctx).1.error = some (securityErrorMsg b)) ∧
    (executeCode c ctx).2 = ctx := by
  have hm2 : isImportAllowed m = false := every_blocked_denied m hm
  refine ⟨hm2, ?_⟩
  cases hfind : c.imports.find? (fun i => ! isImportAllowed i) with
  | none =>
    exfalso
    have hnone := List.find?_eq_none.mp hfind m hc
    simp [hm2] at hnone
  | some b =>
    have hbprop := List.find?_some hfind
    have hb : isImportAllowed b = false := by
      simpa using hbprop
    have hres : executeCode c ctx =
        ({ output := "", error := some (securityErrorMsg b), execution_time_ms := 0,
           truncated := false, memory_peak_bytes := none, cpu_time_ms := none,
           success := false }, ctx) := by
      simp only [executeCode, hfind]
    rw [hres]
    exact ⟨rfl, ⟨b, hb, rfl⟩, rfl⟩

/-- Witness for C1 at the concrete blocked module "os". -/
theorem blocked_import_rejected_witness :
    ("os" ∈ BLOCKED_IMPORTS ∧
      "os" ∈ (SandboxCode.mk ["os"] (fun c2 => (c2, Except.ok "out"))).imports) ∧
    (isImportAllowed "os" = false ∧
     (executeCode (SandboxCode.mk ["os"] (fun c2 => (c2, Except.ok "out"))) []).1.success = false ∧
     (∃ b, isImportAllowed b = false ∧
       (executeCode (SandboxCode.mk ["os"] (fun c2 => (c2, Except.ok "out"))) []).1.error =
         some (securityErrorMsg b)) ∧
     (executeCode (SandboxCode.mk ["os"] (fun c2 => (c2, Except.ok "out"))) []).2 = []) :=
  ⟨⟨by decide, by decide⟩,
   blocked_import_rejected "os" (by decide) _ [] (by decide)⟩

/-- Claim C2: every module name in the allowed import set is accepted by
isImportAllowed, and so is every dotted submodule name one of whose
dotted parents is in the allowed set. -/
theorem allowed_import_accepted (m p : String)
    (hp : p ∈ ALLOWED_IMPORTS) (hpre : splitDot p <+: splitDot m) :
    isImportAllowed m = true :=
  isImportAllowed_of_allowed_parent m p hp hpre

/-- Witness for C2 at the allowed module "json" and its submodule
"json.decoder". -/
theorem allowed_import_accepted_witness :
    ("json" ∈ ALLOWED_IMPORTS ∧ splitDot "json" <+: splitDot "json.decoder") ∧
    isImportAllowed "json.decoder" = true :=
  ⟨⟨by decide, by decide⟩,
   allowed_import_accepted "json.decoder" "json" (by decide) (by decide)⟩

/-- Claim C3: the import decision of isImportAllowed coincides, for every
module name, with the specification's reference algorithm — a static
set-membership check of the full name against the two explicit name
lists followed by a shortest-to-longest parent-prefix walk that denies
on the first blocked entry, allows on the first allowed entry, and
denies by default.  Both sides are pure functions of the module name. -/
theorem import_decision_matches_spec (m : String) :
    isImportAllowed m = specImportDecision m := by
  by_cases hB : m ∈ BLOCKED_IMPORTS
  · simp [isImportAllowed, specImportDecision, firstVerdict, hB]
  · by_cases hA : m ∈ ALLOWED_IMPORTS
    · simp [isImportAllowed, specImportDecision, firstVerdict, hB, hA]
    · simp [isImportAllowed, specImportDecision, firstVerdict, hB, hA,
        checkParents_eq_firstVerdict]

/-- Claim C10: the allowed and blocked import lists are disjoint — a name
on the allowed list is never on the blocked list, so the
blocked-before-allowed check order of isImportAllowed still accepts
every listed allowed name. -/
theorem import_lists_disjoint (m : String) (hm : m ∈ ALLOWED_IMPORTS) :
    m ∉ BLOCKED_IMPORTS ∧ isImportAllowed m = true := by
  have hnb := allowed_not_blocked m hm
  refine ⟨hnb, ?_⟩
  simp [isImportAllowed, hnb, hm]

/-- Witness for C10 at the concrete allowed module "json". -/
theorem import_lists_disjoint_witness :
    ("json" ∈ ALLOWED_IMPORTS) ∧
    ("json" ∉ BLOCKED_IMPORTS ∧ isImportAllowed "json" = true) :=
  ⟨by decide, import_lists_disjoint "json" (by decide)⟩

/-- Claim C4: the four execution profiles carry exactly the documented
default limits — quick = 5 s / 128 MB ("128m"), default = 30 s / 512 MB
("512m"), analysis = 120 s / 2 GB ("2g"), extended = 300 s / 4 GB
("4g") — and getProfile returns the EXECUTION_PROFILES entry of every
profile name. -/
theorem execution_profiles_values :
    (getProfile .quick).timeout = 5 ∧ (getProfile .quick).memory = "128m" ∧
    (getProfile .default).timeout = 30 ∧ (getProfile .default).memory = "512m" ∧
    (getProfile .analysis).timeout = 120 ∧ (getProfile .analysis).memory = "2g" ∧
    (getProfile .extended).timeout = 300 ∧ (getProfile .extended).memory = "4g" ∧
    ∀ p : ExecutionProfile, getProfile p = EXECUTION_PROFILES p :=
  ⟨rfl, rfl, rfl, rfl, rfl, rfl, rfl, rfl, fun _ => rfl⟩

/-- Counterexample for C5: the claim names {sandboxed, container, local}
as the trust levels, but the TrustLevel union of index.ts does not admit
"container" — the middle value is "docker". -/
theorem trust_level_container_counterexample :
    ¬ isTrustLevel "container" ∧ isTrustLevel "docker" := by
  constructor
  · decide
  · decide

/-- Claim C5 (amended): a session's trust_level is exactly one of the
three values sandboxed, docker, local — the TrustLevel union admits
these values and no others. -/
theorem trust_level_values (s : String) :
    isTrustLevel s ↔ (s = "sandboxed" ∨ s = "docker" ∨ s = "local") := by
  simp [isTrustLevel, TRUST_LEVELS]

/-- Claim C6: an ExecutionResult produced by an execute operation has
success = false exactly when its error field is non-empty. -/
theorem result_success_iff_error (c : SandboxCode) (ctx : ReplContext) :
    (executeCode c ctx).1.success = false ↔ (executeCode c ctx).1.error ≠ none := by
  cases hfind : c.imports.find? (fun i => ! isImportAllowed i) with
  | some b => simp [executeCode, hfind]
  | none =>
    cases hrun : c.run ctx with
    | mk ctx2 res =>
      cases res with
      | error e => simp [executeCode, hfind, hrun]
      | ok out => simp [executeCode, hfind, hrun]

/-- Claim C7: setting key k to value v in a session and reading that
session's context back yields k bound to v; clearing a session empties
exactly that session's context, and neither operation touches any other
session. -/
theorem context_set_get_clear (st : SessionStore) (sid k v : String) :
    List.lookup k (getContext (setContext st sid k v) sid) = some v ∧
    getContext (clearContext st sid) sid = [] ∧
    ∀ sid2, sid2 ≠ sid →
      getContext (clearContext st sid) sid2 = getContext st sid2 ∧
      getContext (setContext st sid k v) sid2 = getContext st sid2 := by
  refine ⟨?_, ?_, ?_⟩
  · simp [getContext, setContext, lookup_setKey]
  · simp [getContext, clearContext]
  · intro sid2 h2
    constructor
    · simp [getContext, clearContext, h2]
    · simp [getContext, setContext, h2]

/-- Witness for C7 on the empty store with session "s", key "x",
value "5", and the distinct session "t". -/
theorem context_set_get_clear_witness :
    ("t" ≠ "s") ∧
    List.lookup "x"
      (getContext (setContext (fun _ => ([] : ReplContext)) "s" "x" "5") "s") = some "5" ∧
    getContext (clearContext (fun _ => ([] : ReplContext)) "s") "s" = [] ∧
    getContext (setContext (fun _ => ([] : ReplContext)) "s" "x" "5") "t" =
      getContext (fun _ => ([] : ReplContext)) "t" :=
  ⟨by decide,
   (context_set_get_clear (fun _ => ([] : ReplContext)) "s" "x" "5").1,
   (context_set_get_clear (fun _ => ([] : ReplContext)) "s" "x" "5").2.1,
   ((context_set_get_clear (fun _ => ([] : ReplContext)) "s" "x" "5").2.2 "t"
     (by decide)).2⟩

/-- Claim C8: a run configured with max_depth = N performs at most N
tool-dispatch round trips for every model behaviour, and when the model
requests tools on every response the loop stops pre-emptively at
exactly N round trips — before asking the model again — returning a
forced-termination result. -/
theorem agent_max_depth_termination (respond : Nat → ModelResponse) (N : Nat) :
    (runAgent respond N).iterations ≤ N ∧
    ((∀ i, ∃ calls, respond i = ModelResponse.toolCalls calls) →
      (runAgent respond N).iterations = N ∧
      (runAgent respond N).forced_termination = true ∧
      (runAgent respond N).answer_source = "forced") := by
  constructor
  · have h := agentLoopAux_iterations_le respond N 0
    simpa [runAgent] using h
  · intro h
    have h2 := agentLoopAux_forced respond h N 0
    simpa [runAgent] using h2

/-- Witness for C8: a model that always requests tools, run with
max_depth = 3, stops forced after exactly 3 round trips. -/
theorem agent_max_depth_termination_witness :
    (∀ i : Nat, ∃ calls,
      (fun _ : Nat => ModelResponse.toolCalls ["execute_code"]) i =
        ModelResponse.toolCalls calls) ∧
    (runAgent (fun _ => ModelResponse.toolCalls ["execute_code"]) 3).iterations = 3 ∧
    (runAgent (fun _ => ModelResponse.toolCalls ["execute_code"]) 3).forced_termination
      = true :=
  ⟨fun _ => ⟨["execute_code"], rfl⟩,
   ((agent_max_depth_termination (fun _ => ModelResponse.toolCalls ["execute_code"]) 3).2
     (fun _ => ⟨["execute_code"], rfl⟩)).1,
   ((agent_max_depth_termination (fun _ => ModelResponse.toolCalls ["execute_code"]) 3).2
     (fun _ => ⟨["execute_code"], rfl⟩)).2.1⟩

/-- Claim C9: when execution succeeds, output at or below the 100 KB
ceiling is returned verbatim with truncated = false, and output above
the ceiling is hard-truncated to the ceiling with truncated = true. -/
theorem output_truncated_at_ceiling (c : SandboxCode) (ctx ctx2 : ReplContext)
    (out : String)
    (himp : ∀ i ∈ c.imports, isImportAllowed i = true)
    (hrun : c.run ctx = (ctx2, Except.ok out)) :
    (out.length ≤ OUTPUT_LIMIT →
      (executeCode c ctx).1.output = out ∧ (executeCode c ctx).1.truncated = false) ∧
    (out.length > OUTPUT_LIMIT →
      (executeCode c ctx).1.output = String.mk (out.data.take OUTPUT_LIMIT) ∧
      (executeCode c ctx).1.truncated = true) := by
  have hfind : c.imports.find? (fun i => ! isImportAllowed i) = none := by
    apply List.find?_eq_none.mpr
    intro x hx
    simp [himp x hx]
  constructor
  · intro hle
    have hnot : ¬ out.length > OUTPUT_LIMIT := by omega
    simp [executeCode, hfind, hrun, truncateOutput, hnot]
  · intro hgt
    simp [executeCode, hfind, hrun, truncateOutput, hgt]

/-- Witness for C9 on code producing the short output "ok". -/
theorem output_truncated_at_ceiling_witness :
    (∀ i ∈ ([] : List String), isImportAllowed i = true) ∧
    ("ok".length ≤ OUTPUT_LIMIT) ∧
    (executeCode (SandboxCode.mk [] (fun c2 => (c2, Except.ok "ok"))) []).1.output = "ok" ∧
    (executeCode (SandboxCode.mk [] (fun c2 => (c2, Except.ok "ok"))) []).1.truncated
      = false :=
  ⟨fun i hi => absurd hi (List.not_mem_nil i),
   by decide,
   ((output_truncated_at_ceiling (SandboxCode.mk [] (fun c2 => (c2, Except.ok "ok"))) [] []
      "ok" (fun i hi => absurd hi (List.not_mem_nil i)) rfl).1 (by decide)).1,
   ((output_truncated_at_ceiling (SandboxCode.mk [] (fun c2 => (c2, Except.ok "ok"))) [] []
      "ok" (fun i hi => absurd hi (List.not_mem_nil i)) rfl).1 (by decide)).2⟩
